import Mathlib

/-!
Verification development for the gosmig migration engine.

This file shallowly embeds the core of the gosmig Go package:
the version ledger (the `gosmig` table), the migration registry and its
validation (`migration.go`), the optimistic version guard and the two
executors (`executeInTx` / `executeNoTx`), and the apply / rollback
coordinators (`runCmdUp` / `runCmdDown`), together with the constructor
checks of `newGosmig`.

Modelling conventions:
- The database is a pure state `DBState`: the `ledger` list models the rows
  of the `gosmig` table (`version` column, insertion order), and `schema`
  is an abstract log of committed application-schema changes made by user
  migration actions.  User actions act on the schema only; the ledger is
  mutated exclusively by the engine (`insertDBVersion` / `deleteDBVersion`),
  matching the data model of the package.
- `getDBVersion` models the successful execution of
  `SELECT COALESCE(MAX(version), 0) FROM gosmig`.
- Go errors are `GoError`: `errors.New` values in user/driver code are
  `.base msg`; the two unexported package sentinels `errDBVersionChangedUp`
  and `errDBVersionChangedDown` are the dedicated constructors
  `.sentinelUp` / `.sentinelDown`, which captures Go's identity semantics of
  `errors.Is` for these unexported values (user actions cannot produce
  them); `fmt.Errorf("...: %w", err)` is `.wrapped fullMessage err`.
- Environment failures of `BeginTx` / `Commit` / `Rollback` are injected
  through a `TxEnv` record; `Rollback`'s error is carried but never read,
  mirroring `_ = tx.Rollback()` in the source.
- Output written to the `io.Writer` is modelled as a list of lines, one
  per `Fprintf`/`Fprintln` call (without the trailing newline).
- A nil function call / nil pointer dereference (possible only for
  registries that fail validation and hence can never reach the commands
  through `newGosmig`) is modelled as a `nilPanicErr` error result.
- Go `int` values (versions, limit, counters) are modelled as `Int`; all
  quantities reachable in validated registries stay far from the 64-bit
  wrap-around, and the sort comparators `a.Version - b.Version` /
  `b.Version - a.Version` cannot overflow on positive (validated) versions,
  so plain integer comparisons are a faithful model.
- Go map iteration order (over the duplicate-version counters) is
  unspecified; the model fixes first-occurrence order.  Every statement
  proved about the aggregated findings is order-insensitive (membership,
  emptiness), so nothing depends on this choice.
-/

namespace Gosmig

/-- Go `error` values as used by the package: base errors (`errors.New`),
the two unexported concurrency sentinels, and `fmt.Errorf("...%w...")`
wrappers whose display message is precomputed. -/
inductive GoError where
  | base (msg : String)
  | sentinelUp
  | sentinelDown
  | wrapped (msg : String) (inner : GoError)
deriving DecidableEq, Repr

/-- The `Error()` string of a `GoError`. The sentinel messages are the ones
from `errors.go`. -/
def GoError.message : GoError → String
  | .base m => m
  | .sentinelUp => "database version changed while applying migration up"
  | .sentinelDown => "database version changed while applying migration down"
  | .wrapped m _ => m

/-- Build `fmt.Errorf` output of the form "<pmsg>: %w". -/
def goWrap (pmsg : String) (e : GoError) : GoError :=
  .wrapped (pmsg ++ ": " ++ e.message) e

/-- Models `errors.Is(e, errDBVersionChangedUp)`: the unwrap chain reaches the
up-sentinel (identity comparison, as the sentinel is a unique unexported
`errors.New` value). -/
def GoError.hasSentinelUp : GoError → Bool
  | .sentinelUp => true
  | .wrapped _ inner => inner.hasSentinelUp
  | _ => false

/-- Models `errors.Is(e, errDBVersionChangedDown)`. -/
def GoError.hasSentinelDown : GoError → Bool
  | .sentinelDown => true
  | .wrapped _ inner => inner.hasSentinelDown
  | _ => false

/-- The abstract application schema: a log of committed schema changes. -/
abbrev Schema := List String

/-- A user migration action (`Up` or `Down` function body): it transforms
the schema and may fail; on failure the returned schema holds whatever
partial work the action performed before failing. -/
abbrev SchemaAction := Schema → Schema × Option GoError

/-- The database state: the rows of the `gosmig` ledger table plus the
abstract application schema. -/
structure DBState where
  ledger : List Int
  schema : Schema
deriving DecidableEq, Repr

/-- Evaluates `SELECT COALESCE(MAX(version), 0)` over a list of ledger rows. -/
def maxVersion : List Int → Int
  | [] => 0
  | v :: vs => vs.foldl max v

/-- Models `getDBVersion`: read the current DB version (success path). -/
def getDBVersion (s : DBState) : Int :=
  maxVersion s.ledger

/-- Models `insertDBVersion`: `INSERT INTO gosmig (version) VALUES ($1)`
(success path; the engine only calls it with a version strictly above the
current maximum, so the primary key cannot be violated). -/
def insertDBVersion (v : Int) (s : DBState) : DBState :=
  { s with ledger := s.ledger ++ [v] }

/-- Models `deleteDBVersion`: `DELETE FROM gosmig WHERE version = $1`. -/
def deleteDBVersion (v : Int) (s : DBState) : DBState :=
  { s with ledger := s.ledger.filter (fun w => w != v) }

/-- The error a Go nil function call / nil pointer dereference would raise;
reachable only for registries that fail validation. -/
def nilPanicErr : GoError :=
  .base "runtime error: invalid memory address or nil pointer dereference"

/-- Invoke an optional (possibly nil) Go function value. -/
def actionOrNil (a : Option SchemaAction) : SchemaAction :=
  fun sch =>
    match a with
    | some f => f sch
    | none => (sch, some nilPanicErr)

/-- The guard error produced by `migrateUp`, that is `fmt.Errorf("%w: migration version %d <= current DB version %d", errDBVersionChangedUp, version, dbVersion)`. -/
def guardUpErr (v dbv : Int) : GoError :=
  .wrapped (GoError.message .sentinelUp ++
    s!": migration version {v} <= current DB version {dbv}") .sentinelUp

/-- The guard error produced by `migrateDown`. -/
def guardDownErr (v dbv : Int) : GoError :=
  .wrapped (GoError.message .sentinelDown ++
    s!": migration version {v} > current DB version {dbv}") .sentinelDown

/-- One step of work against the database, as run by an executor. -/
abbrev StepFun := DBState → DBState × Option GoError

/-- Models `migrateUp(version, up, timeout)`: re-read the current version, abort
with the up-sentinel if `version <= dbVersion`, otherwise run the up action
and record the version in the ledger. -/
def migrateUp (version : Int) (up : SchemaAction) : StepFun := fun s =>
  let dbVersion := getDBVersion s
  if version ≤ dbVersion then
    (s, some (guardUpErr version dbVersion))
  else
    match up s.schema with
    | (sch, some e) =>
        ({ s with schema := sch },
          some (goWrap s!"failed to apply migration.up version {version}" e))
    | (sch, none) => (insertDBVersion version { s with schema := sch }, none)

/-- Models `migrateDown(version, down, timeout)`: re-read the current version,
abort with the down-sentinel if `version > dbVersion`, otherwise run the
down action and delete the version from the ledger. -/
def migrateDown (version : Int) (down : SchemaAction) : StepFun := fun s =>
  let dbVersion := getDBVersion s
  if version > dbVersion then
    (s, some (guardDownErr version dbVersion))
  else
    match down s.schema with
    | (sch, some e) =>
        ({ s with schema := sch },
          some (goWrap s!"failed to apply migration.down version {version}" e))
    | (sch, none) => (deleteDBVersion version { s with schema := sch }, none)

/-- Environment outcomes for one `executeInTx` call: whether `BeginTx`,
`Rollback` and `Commit` fail.  The rollback error is never consulted,
mirroring `_ = tx.Rollback()`. -/
structure TxEnv where
  beginErr : Option GoError
  rollbackErr : Option GoError
  commitErr : Option GoError
deriving DecidableEq, Repr

/-- The all-successful transaction environment. -/
def TxEnv.ok : TxEnv := ⟨none, none, none⟩

/-- Models `executeInTx`: begin a transaction, run `fn` on the transaction-local
state; on failure roll back (the rollback error is swallowed) and return
the wrapped triggering error; on success commit — a commit failure leaves
the database unchanged and is returned wrapped. -/
def executeInTx (env : TxEnv) (fn : StepFun) (s : DBState) :
    DBState × Option GoError :=
  match env.beginErr with
  | some e => (s, some (goWrap "failed to begin transaction" e))
  | none =>
    match fn s with
    | (_, some e) => (s, some (goWrap "failed to execute in transaction" e))
    | (s2, none) =>
      match env.commitErr with
      | some e => (s, some (goWrap "failed to commit transaction" e))
      | none => (s2, none)

/-- Models `executeNoTx`: run `fn` directly against the shared connection; its
effects stand even on failure. -/
def executeNoTx (fn : StepFun) (s : DBState) : DBState × Option GoError :=
  match fn s with
  | (s2, some e) => (s2, some (goWrap "failed to execute without transaction" e))
  | (s2, none) => (s2, none)

/-- The `UpDown` struct: optional (nil-able) `Up` and `Down` function
fields. -/
structure UpDownPair where
  up : Option SchemaAction
  down : Option SchemaAction

/-- The `Migration` struct: a version plus the two optional mode fields
`UpDown` (transactional) and `UpDownNoTX` (non-transactional). -/
structure Migration where
  version : Int
  upDown : Option UpDownPair
  upDownNoTX : Option UpDownPair

/-- The up action a coordinator would hand to the executor for `m`
(`m.UpDown.Up` when transactional, else `m.UpDownNoTX.Up`). -/
def upFn (m : Migration) : SchemaAction :=
  match m.upDown with
  | some ud => actionOrNil ud.up
  | none =>
    match m.upDownNoTX with
    | some ud => actionOrNil ud.up
    | none => fun sch => (sch, some nilPanicErr)

/-- The down action a coordinator would hand to the executor for `m`. -/
def downFn (m : Migration) : SchemaAction :=
  match m.upDown with
  | some ud => actionOrNil ud.down
  | none =>
    match m.upDownNoTX with
    | some ud => actionOrNil ud.down
    | none => fun sch => (sch, some nilPanicErr)

/-- Predicate: `m` has at least one execution mode populated. -/
def HasMode (m : Migration) : Prop :=
  m.upDown.isSome = true ∨ m.upDownNoTX.isSome = true

/-- Predicate: the up action of `m` is present and succeeds from every schema. -/
def UpTotal (m : Migration) : Prop :=
  ∀ sch, ((upFn m) sch).2 = none

/-- Predicate: the down action of `m` is present and succeeds from every schema. -/
def DownTotal (m : Migration) : Prop :=
  ∀ sch, ((downFn m) sch).2 = none

/-- The ascending comparison used by `sortMigrationsAsc`
(`a.Version - b.Version`). -/
def migLE (a b : Migration) : Prop := a.version ≤ b.version

/-- The descending comparison used by `sortMigrationsDesc`
(`b.Version - a.Version`). -/
def migGE (a b : Migration) : Prop := b.version ≤ a.version

instance : DecidableRel migLE := fun a b => Int.decLe a.version b.version

instance : DecidableRel migGE := fun a b => Int.decLe b.version a.version

instance : IsTotal Migration migLE := ⟨fun a b => Int.le_total a.version b.version⟩

instance : IsTrans Migration migLE := ⟨fun _ _ _ h1 h2 => le_trans h1 h2⟩

instance : IsTotal Migration migGE := ⟨fun a b => Int.le_total b.version a.version⟩

instance : IsTrans Migration migGE := ⟨fun _ _ _ h1 h2 => le_trans h2 h1⟩

/-- Models `sortMigrationsAsc`: sort the registry by ascending version.
`slices.SortFunc` is modelled by insertion sort; on registries with
distinct versions (the only ones the engine executes) every correct sort
produces the same list. -/
def sortMigrationsAsc (ms : List Migration) : List Migration :=
  List.insertionSort migLE ms

/-- Models `sortMigrationsDesc`: sort the registry by descending version. -/
def sortMigrationsDesc (ms : List Migration) : List Migration :=
  List.insertionSort migGE ms

/-- The success line printed by `runCmdUp` for one applied migration. -/
def appliedLine (v : Int) : String :=
  s!"[x] Applied migration version {v}"

/-- The success line printed by `runCmdDown` for the rolled-back migration. -/
def rolledBackLine (v : Int) : String :=
  s!"[x]-->[ ] Rolled back migration version {v}"

/-- Dispatch one up candidate through the executor matching its mode, with
the outer error wrapping done by `runCmdUp` (`"execute in TX: %w"` /
`"execute without TX: %w"`). -/
def dispatchUp (env : TxEnv) (m : Migration) (s : DBState) :
    DBState × Option GoError :=
  match m.upDown with
  | some ud =>
    match executeInTx env (migrateUp m.version (actionOrNil ud.up)) s with
    | (s2, some e) => (s2, some (goWrap "execute in TX" e))
    | r => r
  | none =>
    match m.upDownNoTX with
    | some ud =>
      match executeNoTx (migrateUp m.version (actionOrNil ud.up)) s with
      | (s2, some e) => (s2, some (goWrap "execute without TX" e))
      | r => r
    | none => (s, some nilPanicErr)

/-- Dispatch one down candidate through the executor matching its mode. -/
def dispatchDown (env : TxEnv) (m : Migration) (s : DBState) :
    DBState × Option GoError :=
  match m.upDown with
  | some ud =>
    match executeInTx env (migrateDown m.version (actionOrNil ud.down)) s with
    | (s2, some e) => (s2, some (goWrap "execute in TX" e))
    | r => r
  | none =>
    match m.upDownNoTX with
    | some ud =>
      match executeNoTx (migrateDown m.version (actionOrNil ud.down)) s with
      | (s2, some e) => (s2, some (goWrap "execute without TX" e))
      | r => r
    | none => (s, some nilPanicErr)

/-- The loop of `runCmdUp` over the ascending-sorted registry:
`dbVersion` is the version snapshot read once before the loop, `out` the
lines written so far, `nb` the running `nbAppliedMigrations` counter. -/
def runCmdUpLoop (env : TxEnv) (dbVersion limit : Int) :
    List Migration → DBState → List String → Int →
    DBState × List String × Option GoError
  | [], s, out, nb =>
      if nb = 0 then (s, out ++ ["No migrations to apply"], none)
      else (s, out ++ [s!"{nb} migration(s) applied"], none)
  | m :: rest, s, out, nb =>
      if m.version ≤ dbVersion then
        runCmdUpLoop env dbVersion limit rest s out nb
      else
        match dispatchUp env m s with
        | (s2, some e) => (s2, out, some e)
        | (s2, none) =>
          if limit > 0 ∧ nb + 1 = limit then
            (s2, (out ++ [appliedLine m.version]) ++
              [s!"{nb + 1} migration(s) applied"], none)
          else
            runCmdUpLoop env dbVersion limit rest s2
              (out ++ [appliedLine m.version]) (nb + 1)

/-- Models `runCmdUp`: sort ascending, read the version snapshot once, then apply
every pending candidate (respecting `limit`), returning the final database
state, the output lines, and the error if the run aborted. -/
def runCmdUp (env : TxEnv) (migrations : List Migration) (s : DBState)
    (limit : Int) : DBState × List String × Option GoError :=
  runCmdUpLoop env (getDBVersion s) limit (sortMigrationsAsc migrations) s [] 0

/-- The loop of `runCmdDown` over the descending-sorted registry: skip
candidates above the snapshot, roll back the first eligible one, return. -/
def runCmdDownLoop (env : TxEnv) (dbVersion : Int) :
    List Migration → DBState → DBState × List String × Option GoError
  | [], s => (s, ["No migrations to roll back"], none)
  | m :: rest, s =>
      if m.version > dbVersion then
        runCmdDownLoop env dbVersion rest s
      else
        match dispatchDown env m s with
        | (s2, some e) => (s2, [], some e)
        | (s2, none) => (s2, [rolledBackLine m.version], none)

/-- Models `runCmdDown`: sort descending, read the version snapshot once, roll
back at most one migration. -/
def runCmdDown (env : TxEnv) (migrations : List Migration) (s : DBState) :
    DBState × List String × Option GoError :=
  runCmdDownLoop env (getDBVersion s) (sortMigrationsDesc migrations) s

/-- Models `Migration.validate`: the first defect of a single migration, with the
exact error messages of `migration.go` (the checks run in source order and
the method returns at the first failing one). -/
def Migration.validateErr (m : Migration) : Option String :=
  let mv := m.version
  if mv ≤ 0 then
    some "migration version must be > 0"
  else
    match m.upDown, m.upDownNoTX with
    | none, none =>
        some s!"migration {mv} must have UpDown xor UpDownNoTX fields defined"
    | some _, some _ =>
        some s!"migration {mv} must have only one of UpDown or UpDownNoTX fields defined"
    | some ud, none =>
        if ud.up.isNone ∨ ud.down.isNone then
          some s!"migration {mv} UpDown must have both Up and Down functions defined"
        else none
    | none, some ud =>
        if ud.up.isNone ∨ ud.down.isNone then
          some s!"migration {mv} UpDownNoTX must have both Up and Down functions defined"
        else none

/-- Increment the counter of `v` in the `migVersionCounters` map, modelled
as an association list in first-occurrence order. -/
def bumpCounter : List (Int × Nat) → Int → List (Int × Nat)
  | [], v => [(v, 1)]
  | (w, c) :: rest, v =>
      if w = v then (w, c + 1) :: rest else (w, c) :: bumpCounter rest v

/-- Look a version's count up in the counters map (0 when absent). -/
def lookupCount : List (Int × Nat) → Int → Nat
  | [], _ => 0
  | (w, c) :: rest, v => if w = v then c else lookupCount rest v

/-- The duplicate-version finding message. -/
def dupMsg (v : Int) (c : Nat) : String :=
  s!"migration version {v} is defined {c} times"

/-- The duplicate-counting loop of `validateMigrations`, with `acc` the
findings collected so far. -/
def dupErrsAux : List (Int × Nat) → List String → List String
  | [], acc => acc
  | (v, c) :: rest, acc =>
      dupErrsAux rest (if 1 < c then acc ++ [dupMsg v c] else acc)

/-- The findings appended by the duplicate-counting loop of
`validateMigrations`. -/
def dupErrs (counters : List (Int × Nat)) : List String :=
  dupErrsAux counters []

/-- The first loop of `validateMigrations` with its two accumulators: the
version counters and the per-migration findings collected so far. -/
def validateScanAux :
    List Migration → List (Int × Nat) → List String →
    List (Int × Nat) × List String
  | [], cs, es => (cs, es)
  | m :: rest, cs, es =>
      validateScanAux rest (bumpCounter cs m.version)
        (match m.validateErr with
         | some e => es ++ [e]
         | none => es)

/-- The first loop of `validateMigrations`: count versions and collect
per-migration validation errors, in registry order. -/
def validateScan (ms : List Migration) : List (Int × Nat) × List String :=
  validateScanAux ms [] []

/-- All findings of `validateMigrations` (`migValidationErrs` after both
loops). -/
def validateMigrationsErrs (ms : List Migration) : List String :=
  (validateScan ms).2 ++ dupErrs (validateScan ms).1

/-- Models `validateMigrations`: combine all findings into the single
`"invalid migration(s): ..."` error, or succeed. -/
def validateMigrations (ms : List Migration) : Option String :=
  if validateMigrationsErrs ms = [] then none
  else
    some ("invalid migration(s): " ++
      String.intercalate "; " (validateMigrationsErrs ms))

/-- How many times a version occurs in the registry. -/
def versionCount (ms : List Migration) (v : Int) : Nat :=
  (ms.map Migration.version).count v

/-- The argument-checking phase of `newGosmig`, in source order; the
nil-ness of the function/writer arguments is abstracted to booleans.  It
returns the setup error, if any.  No database interaction exists in this
phase: the returned runner is the only place the database is touched. -/
def newGosmigSetup (migrations : List Migration)
    (connectToDBNil getArgsNil osExitNil outNil errOutNil : Bool) :
    Option String :=
  if migrations.length = 0 then some "no migrations provided"
  else if connectToDBNil then some "connectToDB function is nil"
  else if getArgsNil then some "getArgs function is nil"
  else if osExitNil then some "osExit function is nil"
  else if outNil then some "out writer is nil"
  else if errOutNil then some "errOut writer is nil"
  else validateMigrations migrations

/-! ### Basic ledger lemmas -/

lemma maxVersion_concat (l : List Int) (x : Int) (h : maxVersion l < x) :
    maxVersion (l ++ [x]) = x := by
  cases l with
  | nil => rfl
  | cons v vs =>
    have h1 : maxVersion ((v :: vs) ++ [x]) =
        List.foldl max (List.foldl max v vs) [x] := by
      rw [List.cons_append]
      show List.foldl max v (vs ++ [x]) = _
      rw [List.foldl_append]
    rw [h1]
    show max (List.foldl max v vs) x = x
    exact max_eq_right (le_of_lt h)

lemma getDBVersion_set_schema (s : DBState) (sch : Schema) :
    getDBVersion { s with schema := sch } = getDBVersion s := rfl

lemma getDBVersion_insert_gt (s : DBState) (x : Int)
    (h : getDBVersion s < x) :
    getDBVersion (insertDBVersion x s) = x := by
  unfold getDBVersion insertDBVersion
  exact maxVersion_concat s.ledger x h

/-! ### One applied up-migration as a state transformer -/

/-- The state after one successfully applied up migration: the up action's
schema effect plus the ledger insert. -/
def applyUpStep (m : Migration) (s : DBState) : DBState :=
  insertDBVersion m.version { s with schema := ((upFn m) s.schema).1 }

/-- The state after a run of successfully applied up migrations. -/
def applyUps : List Migration → DBState → DBState
  | [], s => s
  | m :: rest, s => applyUps rest (applyUpStep m s)

lemma applyUps_ledger :
    ∀ (ms : List Migration) (s : DBState),
      (applyUps ms s).ledger = s.ledger ++ ms.map Migration.version
  | [], s => by simp [applyUps]
  | m :: rest, s => by
    simp [applyUps, applyUps_ledger rest, applyUpStep, insertDBVersion]

lemma getDBVersion_applyUpStep (m : Migration) (s : DBState)
    (h : getDBVersion s < m.version) :
    getDBVersion (applyUpStep m s) = m.version := by
  unfold applyUpStep
  rw [getDBVersion_insert_gt]
  rwa [getDBVersion_set_schema]

/-- If a successful up-migration executes for `m`, the executor matching its
mode commits exactly `applyUpStep m`. -/
lemma dispatchUp_ok (m : Migration) (s : DBState) (hmode : HasMode m)
    (hup : UpTotal m) (hguard : getDBVersion s < m.version) :
    dispatchUp TxEnv.ok m s = (applyUpStep m s, none) := by
  have hnotle : ¬ m.version ≤ getDBVersion s := by omega
  cases hud : m.upDown with
  | some ud =>
    have hupfn : upFn m = actionOrNil ud.up := by simp [upFn, hud]
    have h2 := hup s.schema
    rw [hupfn] at h2
    cases hact : actionOrNil ud.up s.schema with
    | mk sch r =>
      rw [hact] at h2
      simp only at h2
      subst h2
      simp only [dispatchUp, hud, executeInTx, TxEnv.ok, migrateUp, hnotle,
        if_false, hact, applyUpStep, hupfn, getDBVersion_set_schema]
  | none =>
    cases hud2 : m.upDownNoTX with
    | some ud =>
      have hupfn : upFn m = actionOrNil ud.up := by simp [upFn, hud, hud2]
      have h2 := hup s.schema
      rw [hupfn] at h2
      cases hact : actionOrNil ud.up s.schema with
      | mk sch r =>
        rw [hact] at h2
        simp only at h2
        subst h2
        simp only [dispatchUp, hud, hud2, executeNoTx, migrateUp, hnotle,
          if_false, hact, applyUpStep, hupfn, getDBVersion_set_schema]
    | none =>
      rcases hmode with h | h
      · rw [hud] at h; simp at h
      · rw [hud2] at h; simp at h

/-! ### The apply loop on an all-successful prefix -/

lemma runCmdUpLoop_ok_append (dbV limit : Int) (hlim : limit ≤ 0) :
    ∀ (good tail : List Migration) (s : DBState) (out : List String) (nb : Int),
      (∀ m ∈ good, HasMode m ∧ UpTotal m) →
      List.Chain (fun a b => a < b) (getDBVersion s)
        (good.map Migration.version) →
      dbV ≤ getDBVersion s →
      runCmdUpLoop TxEnv.ok dbV limit (good ++ tail) s out nb =
        runCmdUpLoop TxEnv.ok dbV limit tail (applyUps good s)
          (out ++ good.map (fun m => appliedLine m.version))
          (nb + good.length)
  | [], tail, s, out, nb, _, _, _ => by simp [applyUps]
  | m :: rest, tail, s, out, nb, hgood, hchain, hdb => by
    rw [List.map_cons, List.chain_cons] at hchain
    obtain ⟨hlt, hchain2⟩ := hchain
    have hm := hgood m (List.mem_cons_self m rest)
    have hnotskip : ¬ m.version ≤ dbV := by omega
    have hstep := dispatchUp_ok m s hm.1 hm.2 hlt
    rw [List.cons_append]
    simp only [runCmdUpLoop, if_neg hnotskip, hstep]
    have hnobreak : ¬ (limit > 0 ∧ nb + 1 = limit) := by omega
    rw [if_neg hnobreak]
    have hcur : getDBVersion (applyUpStep m s) = m.version :=
      getDBVersion_applyUpStep m s hlt
    have ih := runCmdUpLoop_ok_append dbV limit hlim rest tail
      (applyUpStep m s) (out ++ [appliedLine m.version]) (nb + 1)
      (fun m' hm' => hgood m' (List.mem_cons_of_mem m hm'))
      (by rw [hcur]; exact hchain2)
      (by omega)
    rw [ih]
    have e1 : (out ++ [appliedLine m.version]) ++
        rest.map (fun m => appliedLine m.version) =
        out ++ (m :: rest).map (fun m => appliedLine m.version) := by
      simp
    have e2 : (nb + 1) + (rest.length : Int) =
        nb + ((m :: rest).length : Int) := by
      simp only [List.length_cons]
      push_cast
      omega
    rw [e1, e2]
    rfl

lemma runCmdUpLoop_skip (env : TxEnv) (dbV limit : Int) :
    ∀ (skipped tail : List Migration) (s : DBState) (out : List String)
      (nb : Int),
      (∀ m ∈ skipped, m.version ≤ dbV) →
      runCmdUpLoop env dbV limit (skipped ++ tail) s out nb =
        runCmdUpLoop env dbV limit tail s out nb
  | [], tail, s, out, nb, _ => by simp
  | m :: rest, tail, s, out, nb, h => by
    have hm : m.version ≤ dbV := h m (List.mem_cons_self m rest)
    simp only [List.cons_append, runCmdUpLoop, if_pos hm]
    exact runCmdUpLoop_skip env dbV limit rest tail s out nb
      (fun m' hm' => h m' (List.mem_cons_of_mem m hm'))

lemma runCmdUpLoop_limit_nonpos (env : TxEnv) (dbV : Int) {l1 l2 : Int}
    (h1 : l1 ≤ 0) (h2 : l2 ≤ 0) :
    ∀ (ms : List Migration) (s : DBState) (out : List String) (nb : Int),
      runCmdUpLoop env dbV l1 ms s out nb = runCmdUpLoop env dbV l2 ms s out nb
  | [], _, _, _ => rfl
  | m :: rest, s, out, nb => by
    simp only [runCmdUpLoop]
    by_cases hskip : m.version ≤ dbV
    · simp only [if_pos hskip]
      exact runCmdUpLoop_limit_nonpos env dbV h1 h2 rest s out nb
    · simp only [if_neg hskip]
      cases hd : dispatchUp env m s with
      | mk s2 r =>
        cases r with
        | some e => rfl
        | none =>
          dsimp only
          have hb1 : ¬ (l1 > 0 ∧ nb + 1 = l1) := by omega
          have hb2 : ¬ (l2 > 0 ∧ nb + 1 = l2) := by omega
          rw [if_neg hb1, if_neg hb2]
          exact runCmdUpLoop_limit_nonpos env dbV h1 h2 rest s2
            (out ++ [appliedLine m.version]) (nb + 1)

/-! ### Concrete fixtures for witnesses and counterexamples -/

/-- A user action that changes nothing and succeeds. -/
def actNop : SchemaAction := fun sch => (sch, none)

/-- A user action that fails with a driver error. -/
def actFail : SchemaAction := fun sch => (sch, some (.base "boom"))

/-- A transactional migration whose actions succeed. -/
def txNop (v : Int) : Migration := ⟨v, some ⟨some actNop, some actNop⟩, none⟩

/-- A transactional migration whose actions fail. -/
def txFail (v : Int) : Migration := ⟨v, some ⟨some actFail, some actFail⟩, none⟩

lemma txNop_upTotal (v : Int) : UpTotal (txNop v) := fun _ => rfl

lemma txNop_hasMode (v : Int) : HasMode (txNop v) := Or.inl rfl

/-! ### Claim theorems -/

/-- C10: constructing the tool with an empty migrations slice fails with
"no migrations provided" regardless of the other arguments, before any
validation or database interaction (the setup phase touches no database
state at all), even though `validateMigrations` accepts the empty slice. -/
theorem c10_empty_migrations (b1 b2 b3 b4 b5 : Bool) :
    newGosmigSetup [] b1 b2 b3 b4 b5 = some "no migrations provided" ∧
    validateMigrations ([] : List Migration) = none :=
  ⟨rfl, rfl⟩

/-- C3: for any candidate version, state and user action (user actions
cannot produce the unexported concurrency sentinels, hence `hclean`), the
up guard aborts with a ConcurrencyConflictError exactly when
`version ≤ reread` and the down guard exactly when `version > reread`; on
such an abort the result is the bare guard error with the state unchanged
(no ledger insert or delete), independently of the action — so the action
is never invoked. -/
theorem c3_guard_iff (v : Int) (s : DBState) (act : SchemaAction)
    (hclean : ∀ sch e, (act sch).2 = some e →
      e.hasSentinelUp = false ∧ e.hasSentinelDown = false) :
    ((∃ e, (migrateUp v act s).2 = some e ∧ e.hasSentinelUp = true) ↔
      v ≤ getDBVersion s) ∧
    (v ≤ getDBVersion s → ∀ act' : SchemaAction,
      migrateUp v act' s = (s, some (guardUpErr v (getDBVersion s)))) ∧
    ((∃ e, (migrateDown v act s).2 = some e ∧ e.hasSentinelDown = true) ↔
      getDBVersion s < v) ∧
    (getDBVersion s < v → ∀ act' : SchemaAction,
      migrateDown v act' s = (s, some (guardDownErr v (getDBVersion s)))) := by
  refine ⟨⟨?_, ?_⟩, ?_, ⟨?_, ?_⟩, ?_⟩
  · rintro ⟨e, he, hup⟩
    by_contra hno
    push_neg at hno
    simp only [migrateUp, if_neg (not_le.mpr hno)] at he
    cases hact : act s.schema with
    | mk sch r =>
      rw [hact] at he
      cases r with
      | none => simp at he
      | some e2 =>
        simp only at he
        obtain rfl : goWrap s!"failed to apply migration.up version {v}" e2 = e := by
          simpa using he
        have := (hclean s.schema e2 (by rw [hact])).1
        simp only [goWrap, GoError.hasSentinelUp] at hup
        rw [this] at hup
        exact Bool.false_ne_true hup
  · intro h
    exact ⟨guardUpErr v (getDBVersion s), by simp [migrateUp, if_pos h], rfl⟩
  · intro h act'
    simp [migrateUp, if_pos h]
  · rintro ⟨e, he, hdown⟩
    by_contra hno
    push_neg at hno
    simp only [migrateDown, gt_iff_lt, if_neg (not_lt.mpr hno)] at he
    cases hact : act s.schema with
    | mk sch r =>
      rw [hact] at he
      cases r with
      | none => simp at he
      | some e2 =>
        simp only at he
        obtain rfl : goWrap s!"failed to apply migration.down version {v}" e2 = e := by
          simpa using he
        have := (hclean s.schema e2 (by rw [hact])).2
        simp only [goWrap, GoError.hasSentinelDown] at hdown
        rw [this] at hdown
        exact Bool.false_ne_true hdown
  · intro h
    exact ⟨guardDownErr v (getDBVersion s), by simp [migrateDown, h], rfl⟩
  · intro h act'
    simp [migrateDown, h]

/-- C3 witness: at version 1 against a ledger at version 5 the up guard
aborts with the bare guard error and an unchanged state. -/
theorem c3_guard_iff_witness :
    (∀ sch e, (actNop sch).2 = some e →
      e.hasSentinelUp = false ∧ e.hasSentinelDown = false) ∧
    (1 : Int) ≤ getDBVersion ⟨[5], []⟩ ∧
    migrateUp 1 actNop ⟨[5], []⟩ = (⟨[5], []⟩, some (guardUpErr 1 5)) :=
  ⟨fun _ e h => absurd h (by simp [actNop]),
   by decide,
   (c3_guard_iff 1 ⟨[5], []⟩ actNop
      (fun _ e h => absurd h (by simp [actNop]))).2.1 (by decide) actNop⟩

/-- C2 counterexample: registry {1, 2} over an empty ledger.  Candidate 2
is selected against the snapshot version 0; by the time its guard check
re-reads the ledger, migration 1 has committed and the reread version is
1 ≠ 0 — yet the migration does not abort: its guard body returns no error
and the whole apply-all run applies both migrations successfully.  So a
guard-time reread that differs from the selection snapshot does not imply
an abort. -/
theorem c2_counterexample :
    getDBVersion ⟨[], []⟩ = 0 ∧
    (dispatchUp TxEnv.ok (txNop 1) ⟨[], []⟩).1 = ⟨[1], []⟩ ∧
    getDBVersion ⟨[1], []⟩ = 1 ∧
    getDBVersion ⟨[1], []⟩ ≠ getDBVersion ⟨[], []⟩ ∧
    (migrateUp (txNop 2).version actNop ⟨[1], []⟩).2 = none ∧
    runCmdUp TxEnv.ok [txNop 1, txNop 2] ⟨[], []⟩ 0 =
      (⟨[1, 2], []⟩, [appliedLine 1, appliedLine 2,
        "2 migration(s) applied"], none) := by
  refine ⟨rfl, rfl, rfl, by decide, rfl, by decide⟩

/-- C2 (amended): the migration aborts exactly when the re-read ledger
version makes the candidate ineligible — up: `version ≤ reread`, down:
`version > reread` (not whenever the reread merely differs from the
selection snapshot); on such an abort in transactional mode the
transaction rolls back: no ledger row is written and no schema change
from that attempt is committed (the state is returned unchanged). -/
theorem c2_amended_guard_abort (v : Int) (act : SchemaAction) (s : DBState)
    (rb c : Option GoError) :
    (v ≤ getDBVersion s →
      executeInTx ⟨none, rb, c⟩ (migrateUp v act) s =
        (s, some (goWrap "failed to execute in transaction"
          (guardUpErr v (getDBVersion s))))) ∧
    (getDBVersion s < v →
      executeInTx ⟨none, rb, c⟩ (migrateDown v act) s =
        (s, some (goWrap "failed to execute in transaction"
          (guardDownErr v (getDBVersion s))))) := by
  constructor
  · intro h
    have hbody : migrateUp v act s = (s, some (guardUpErr v (getDBVersion s))) := by
      simp [migrateUp, if_pos h]
    simp only [executeInTx, hbody]
  · intro h
    have hbody : migrateDown v act s = (s, some (guardDownErr v (getDBVersion s))) := by
      simp [migrateDown, h]
    simp only [executeInTx, hbody]

/-- C2 amended witness: version 1 against a ledger already at version 5,
inside a transaction with an injected rollback error (which is swallowed). -/
theorem c2_amended_guard_abort_witness :
    (1 : Int) ≤ getDBVersion ⟨[5], []⟩ ∧
    executeInTx ⟨none, some (.base "rollback broke"), none⟩
        (migrateUp 1 actNop) ⟨[5], []⟩ =
      (⟨[5], []⟩, some (goWrap "failed to execute in transaction"
        (guardUpErr 1 5))) :=
  ⟨by decide,
   (c2_amended_guard_abort 1 actNop ⟨[5], []⟩
      (some (.base "rollback broke")) none).1 (by decide)⟩

/-- C4: transactional failure semantics.  (1) If the body (guard check,
action or ledger mutation) fails, the transaction rolls back: the state is
returned unchanged, the triggering error is returned wrapped, and the
result is independent of whether rollback itself errors (rollback errors
are swallowed).  (2) If the body succeeds but commit fails, that commit
error is returned (and the commit dropped the transaction, leaving the
state unchanged).  (3) On apply-all, after a prefix of successfully
committed migrations a failing transactional candidate stops the run with
its wrapped error while the earlier commits remain in the ledger. -/
theorem c4_tx_failure_semantics :
    (∀ (fn : StepFun) (s s2 : DBState) (e : GoError) (rb rb' c : Option GoError),
      fn s = (s2, some e) →
        executeInTx ⟨none, rb, c⟩ fn s =
          (s, some (goWrap "failed to execute in transaction" e)) ∧
        executeInTx ⟨none, rb, c⟩ fn s = executeInTx ⟨none, rb', c⟩ fn s) ∧
    (∀ (fn : StepFun) (s s2 : DBState) (rb : Option GoError) (ce : GoError),
      fn s = (s2, none) →
        executeInTx ⟨none, rb, some ce⟩ fn s =
          (s, some (goWrap "failed to commit transaction" ce))) ∧
    (∀ (migrations good rest : List Migration) (mbad : Migration)
        (ud : UpDownPair) (s : DBState) (limit : Int) (e : GoError),
      limit ≤ 0 →
      sortMigrationsAsc migrations = good ++ mbad :: rest →
      (∀ m ∈ good, HasMode m ∧ UpTotal m) →
      List.Chain (fun a b => a < b) (getDBVersion s)
        (good.map Migration.version) →
      getDBVersion s < mbad.version →
      mbad.upDown = some ud →
      (migrateUp mbad.version (actionOrNil ud.up) (applyUps good s)).2 = some e →
      runCmdUp TxEnv.ok migrations s limit =
        (applyUps good s, good.map (fun m => appliedLine m.version),
          some (goWrap "execute in TX"
            (goWrap "failed to execute in transaction" e))) ∧
      (applyUps good s).ledger = s.ledger ++ good.map Migration.version) := by
  refine ⟨?_, ?_, ?_⟩
  · intro fn s s2 e rb rb' c hfn
    constructor
    · simp only [executeInTx, hfn]
    · simp only [executeInTx, hfn]
  · intro fn s s2 rb ce hfn
    simp only [executeInTx, hfn]
  · intro migrations good rest mbad ud s limit e hlim hsort hgood hchain hlt hud hbody
    refine ⟨?_, applyUps_ledger good s⟩
    unfold runCmdUp
    rw [hsort]
    rw [runCmdUpLoop_ok_append (getDBVersion s) limit hlim good (mbad :: rest)
      s [] 0 hgood hchain le_rfl]
    have hnotskip : ¬ mbad.version ≤ getDBVersion s := by omega
    rcases hmig : migrateUp mbad.version (actionOrNil ud.up) (applyUps good s)
      with ⟨s2, r⟩
    obtain rfl : r = some e := by rw [hmig] at hbody; exact hbody
    have hdisp : dispatchUp TxEnv.ok mbad (applyUps good s) =
        (applyUps good s, some (goWrap "execute in TX"
          (goWrap "failed to execute in transaction" e))) := by
      simp only [dispatchUp, hud, executeInTx, TxEnv.ok, hmig]
    simp only [runCmdUpLoop, if_neg hnotskip, hdisp, List.nil_append,
      Int.zero_add]

/-- C4 witness: registry {1 (succeeds), 2 (action fails)} from an empty
ledger: part (1) at the failing body of migration 2 with an injected
rollback error, part (2) at a succeeding body with a failing commit, part
(3) for the full apply-all run stopping at migration 2 with migration 1
still committed. -/
theorem c4_tx_failure_semantics_witness :
    (migrateUp 2 actFail ⟨[1], []⟩ =
      (⟨[1], []⟩, some (goWrap "failed to apply migration.up version 2"
        (.base "boom"))) ∧
      executeInTx ⟨none, some (.base "rollback broke"), none⟩
          (migrateUp 2 actFail) ⟨[1], []⟩ =
        (⟨[1], []⟩, some (goWrap "failed to execute in transaction"
          (goWrap "failed to apply migration.up version 2" (.base "boom"))))) ∧
    (migrateUp 2 actNop ⟨[1], []⟩ = (⟨[1, 2], []⟩, none) ∧
      executeInTx ⟨none, none, some (.base "commit broke")⟩
          (migrateUp 2 actNop) ⟨[1], []⟩ =
        (⟨[1], []⟩, some (goWrap "failed to commit transaction"
          (.base "commit broke")))) ∧
    runCmdUp TxEnv.ok [txNop 1, txFail 2] ⟨[], []⟩ 0 =
      (⟨[1], []⟩, [appliedLine 1],
        some (goWrap "execute in TX" (goWrap "failed to execute in transaction"
          (goWrap "failed to apply migration.up version 2" (.base "boom"))))) := by
  refine ⟨⟨rfl, ?_⟩, ⟨rfl, ?_⟩, ?_⟩
  · exact (c4_tx_failure_semantics.1 (migrateUp 2 actFail) ⟨[1], []⟩ ⟨[1], []⟩
      (goWrap "failed to apply migration.up version 2" (.base "boom"))
      (some (.base "rollback broke")) none none rfl).1
  · exact c4_tx_failure_semantics.2.1 (migrateUp 2 actNop) ⟨[1], []⟩ ⟨[1, 2], []⟩
      none (.base "commit broke") rfl
  · exact (c4_tx_failure_semantics.2.2 [txNop 1, txFail 2] [txNop 1] []
      (txFail 2) ⟨some actFail, some actFail⟩ ⟨[], []⟩ 0
      (goWrap "failed to apply migration.up version 2" (.base "boom"))
      (by decide) rfl
      (fun m hm => by
        rw [List.mem_singleton] at hm
        subst hm
        exact ⟨txNop_hasMode 1, txNop_upTotal 1⟩)
      (List.Chain.cons (by decide) List.Chain.nil)
      (by decide) rfl rfl).1

/-- C9: a negative limit behaves exactly as limit = 0 (unlimited): the
stop-after-limit check only fires when `limit > 0`, so a negative limit
applies every pending migration rather than none. -/
theorem c9_negative_limit (env : TxEnv) (ms : List Migration) (s : DBState)
    (limit : Int) (h : limit < 0) :
    runCmdUp env ms s limit = runCmdUp env ms s 0 := by
  unfold runCmdUp
  exact runCmdUpLoop_limit_nonpos env (getDBVersion s) (le_of_lt h) le_rfl
    (sortMigrationsAsc ms) s [] 0

/-- C9 witness: limit −1 on a two-migration registry equals limit 0 (and
both apply every pending migration). -/
theorem c9_negative_limit_witness :
    (-1 : Int) < 0 ∧
    runCmdUp TxEnv.ok [txNop 1, txNop 2] ⟨[], []⟩ (-1) =
      runCmdUp TxEnv.ok [txNop 1, txNop 2] ⟨[], []⟩ 0 ∧
    runCmdUp TxEnv.ok [txNop 1, txNop 2] ⟨[], []⟩ (-1) =
      (⟨[1, 2], []⟩, [appliedLine 1, appliedLine 2,
        "2 migration(s) applied"], none) :=
  ⟨by decide,
   c9_negative_limit TxEnv.ok [txNop 1, txNop 2] ⟨[], []⟩ (-1) (by decide),
   by decide⟩

/-- C7: when every registry version is ≤ the current ledger version,
apply-all runs no migration action, performs no ledger insert or delete
(the state is returned exactly unchanged) and emits "No migrations to
apply" instead of an applied-count summary. -/
theorem c7_noop_reapply (env : TxEnv) (ms : List Migration) (s : DBState)
    (limit : Int) (h : ∀ m ∈ ms, m.version ≤ getDBVersion s) :
    runCmdUp env ms s limit = (s, ["No migrations to apply"], none) := by
  unfold runCmdUp
  rw [← List.append_nil (sortMigrationsAsc ms)]
  rw [runCmdUpLoop_skip env (getDBVersion s) limit (sortMigrationsAsc ms) []
    s [] 0
    (fun m hm => h m ((List.perm_insertionSort migLE ms).mem_iff.mp hm))]
  rfl

/-- C7 witness: re-running apply-all with registry {1, 2} on a ledger
already at version 2 is a pure no-op. -/
theorem c7_noop_reapply_witness :
    (∀ m ∈ [txNop 1, txNop 2], m.version ≤ getDBVersion ⟨[1, 2], []⟩) ∧
    runCmdUp TxEnv.ok [txNop 1, txNop 2] ⟨[1, 2], []⟩ 0 =
      (⟨[1, 2], []⟩, ["No migrations to apply"], none) :=
  ⟨fun m hm => by
      rcases List.mem_cons.mp hm with h1 | h1
      · subst h1; decide
      · rw [List.mem_singleton] at h1; subst h1; decide,
   c7_noop_reapply TxEnv.ok [txNop 1, txNop 2] ⟨[1, 2], []⟩ 0
     (fun m hm => by
        rcases List.mem_cons.mp hm with h1 | h1
        · subst h1; decide
        · rw [List.mem_singleton] at h1; subst h1; decide)⟩

/-! ### Sorting a registry with distinct versions -/

/-- Strict version order on migrations. -/
def migLT (a b : Migration) : Prop := a.version < b.version

instance : IsAntisymm Migration migLT :=
  ⟨fun _ _ h1 h2 => absurd (lt_trans h1 h2) (lt_irrefl _)⟩

/-- A version-wise sorted migration list with distinct versions is
strictly sorted. -/
lemma sorted_migLT_of_sorted_nodup {l : List Migration}
    (hs : List.Sorted migLE l) (hn : (l.map Migration.version).Nodup) :
    List.Sorted migLT l := by
  have hne : l.Pairwise (fun a b => a.version ≠ b.version) :=
    List.pairwise_map.mp hn
  exact (hs.and hne).imp (fun h => lt_of_le_of_ne h.1 h.2)

/-- C8: on a registry with distinct versions, the descending sort is the
exact reverse of the ascending sort, and each is a permutation of the
input (hence carries exactly the input's versions). -/
theorem c8_sort_reverse (ms : List Migration)
    (hnd : (ms.map Migration.version).Nodup) :
    sortMigrationsDesc ms = (sortMigrationsAsc ms).reverse ∧
    List.Perm ((sortMigrationsAsc ms).map Migration.version)
      (ms.map Migration.version) ∧
    List.Perm ((sortMigrationsDesc ms).map Migration.version)
      (ms.map Migration.version) := by
  have pa : List.Perm (sortMigrationsAsc ms) ms := List.perm_insertionSort migLE ms
  have pd : List.Perm (sortMigrationsDesc ms) ms := List.perm_insertionSort migGE ms
  have pdr : List.Perm ((sortMigrationsDesc ms).reverse) ms :=
    (List.reverse_perm (sortMigrationsDesc ms)).trans pd
  have hna : ((sortMigrationsAsc ms).map Migration.version).Nodup :=
    ((pa.map Migration.version).nodup_iff).mpr hnd
  have hndr : (((sortMigrationsDesc ms).reverse).map Migration.version).Nodup :=
    ((pdr.map Migration.version).nodup_iff).mpr hnd
  have hsa : List.Sorted migLT (sortMigrationsAsc ms) :=
    sorted_migLT_of_sorted_nodup (List.sorted_insertionSort migLE ms) hna
  have hsd0 : List.Sorted migGE (sortMigrationsDesc ms) :=
    List.sorted_insertionSort migGE ms
  have hsdrev : List.Sorted migLE ((sortMigrationsDesc ms).reverse) := by
    rw [List.Sorted, List.pairwise_reverse]
    exact hsd0
  have hsd : List.Sorted migLT ((sortMigrationsDesc ms).reverse) :=
    sorted_migLT_of_sorted_nodup hsdrev hndr
  have heq : (sortMigrationsDesc ms).reverse = sortMigrationsAsc ms :=
    List.eq_of_perm_of_sorted (pdr.trans pa.symm) hsd hsa
  refine ⟨?_, pa.map Migration.version, pd.map Migration.version⟩
  rw [← heq, List.reverse_reverse]

/-- C8 witness: on the two-element registry {2, 1}. -/
theorem c8_sort_reverse_witness :
    (([txNop 2, txNop 1].map Migration.version).Nodup) ∧
    sortMigrationsDesc [txNop 2, txNop 1] =
      (sortMigrationsAsc [txNop 2, txNop 1]).reverse ∧
    List.Perm ((sortMigrationsAsc [txNop 2, txNop 1]).map Migration.version)
      ([txNop 2, txNop 1].map Migration.version) ∧
    List.Perm ((sortMigrationsDesc [txNop 2, txNop 1]).map Migration.version)
      ([txNop 2, txNop 1].map Migration.version) :=
  ⟨by decide, c8_sort_reverse [txNop 2, txNop 1] (by decide)⟩

/-! ### Validation aggregation lemmas -/

lemma dupErrsAux_mono (x : String) :
    ∀ (cs : List (Int × Nat)) (acc : List String),
      x ∈ acc → x ∈ dupErrsAux cs acc
  | [], _, hx => hx
  | (v, c) :: rest, acc, hx => by
    unfold dupErrsAux
    by_cases h : 1 < c
    · rw [if_pos h]
      exact dupErrsAux_mono x rest _ (List.mem_append_left _ hx)
    · rw [if_neg h]
      exact dupErrsAux_mono x rest acc hx

lemma dupErrsAux_mem :
    ∀ (cs : List (Int × Nat)) (acc : List String) (v : Int) (c : Nat),
      (v, c) ∈ cs → 1 < c → dupMsg v c ∈ dupErrsAux cs acc
  | [], _, v, c, hmem, _ => absurd hmem (List.not_mem_nil _)
  | (w, d) :: rest, acc, v, c, hmem, hc => by
    unfold dupErrsAux
    rcases List.mem_cons.mp hmem with heq | htail
    · obtain ⟨rfl, rfl⟩ := Prod.mk.injEq .. ▸ heq
      rw [if_pos hc]
      exact dupErrsAux_mono _ rest _ (List.mem_append_right _ (List.mem_singleton_self _))
    · exact dupErrsAux_mem rest _ v c htail hc

lemma validateScanAux_snd :
    ∀ (ms : List Migration) (cs : List (Int × Nat)) (es : List String),
      (validateScanAux ms cs es).2 = es ++ ms.filterMap Migration.validateErr
  | [], cs, es => by simp [validateScanAux]
  | m :: rest, cs, es => by
    unfold validateScanAux
    cases hv : m.validateErr with
    | some e =>
      rw [validateScanAux_snd rest]
      simp [List.filterMap_cons, hv]
    | none =>
      rw [validateScanAux_snd rest]
      simp [List.filterMap_cons, hv]

lemma lookupCount_bump_self :
    ∀ (cs : List (Int × Nat)) (v : Int),
      lookupCount (bumpCounter cs v) v = lookupCount cs v + 1
  | [], v => by simp [bumpCounter, lookupCount]
  | (w, c) :: rest, v => by
    unfold bumpCounter
    by_cases h : w = v
    · simp [lookupCount, if_pos h]
    · simp only [if_neg h, lookupCount]
      exact lookupCount_bump_self rest v

lemma lookupCount_bump_other :
    ∀ (cs : List (Int × Nat)) (w v : Int), w ≠ v →
      lookupCount (bumpCounter cs w) v = lookupCount cs v
  | [], w, v, hne => by simp [bumpCounter, lookupCount, if_neg hne]
  | (u, c) :: rest, w, v, hne => by
    unfold bumpCounter
    by_cases h : u = w
    · subst h
      simp [lookupCount, if_neg hne]
    · simp only [if_neg h, lookupCount]
      by_cases h2 : u = v
      · rw [if_pos h2, if_pos h2]
      · rw [if_neg h2, if_neg h2]
        exact lookupCount_bump_other rest w v hne

lemma validateScanAux_fst_lookup :
    ∀ (ms : List Migration) (cs : List (Int × Nat)) (es : List String) (v : Int),
      lookupCount (validateScanAux ms cs es).1 v =
        lookupCount cs v + (ms.map Migration.version).count v
  | [], cs, es, v => by simp [validateScanAux]
  | m :: rest, cs, es, v => by
    unfold validateScanAux
    rw [validateScanAux_fst_lookup rest]
    by_cases h : m.version = v
    · rw [h, lookupCount_bump_self]
      simp [List.count_cons, h]
      omega
    · rw [lookupCount_bump_other cs m.version v h]
      simp [List.count_cons, h]

lemma mem_of_lookupCount_pos :
    ∀ (cs : List (Int × Nat)) (v : Int) (c : Nat),
      lookupCount cs v = c → 0 < c → (v, c) ∈ cs
  | [], v, c, hl, hc => by simp [lookupCount] at hl; omega
  | (w, d) :: rest, v, c, hl, hc => by
    unfold lookupCount at hl
    by_cases h : w = v
    · rw [if_pos h] at hl
      subst h
      subst hl
      exact List.mem_cons_self _ _
    · rw [if_neg h] at hl
      exact List.mem_cons_of_mem _ (mem_of_lookupCount_pos rest v c hl hc)

/-- No per-migration finding is dropped: validation never short-circuits
the registry scan. -/
lemma mem_errs_of_validateErr {ms : List Migration} {m : Migration}
    {e : String} (hm : m ∈ ms) (he : m.validateErr = some e) :
    e ∈ validateMigrationsErrs ms := by
  unfold validateMigrationsErrs validateScan
  apply List.mem_append_left
  rw [validateScanAux_snd]
  simp only [List.nil_append]
  exact List.mem_filterMap.mpr ⟨m, hm, he⟩

/-- Every duplicated version yields a finding. -/
lemma dup_mem_errs {ms : List Migration} {v : Int}
    (h : 1 < versionCount ms v) :
    dupMsg v (versionCount ms v) ∈ validateMigrationsErrs ms := by
  unfold validateMigrationsErrs validateScan
  apply List.mem_append_right
  have hl : lookupCount (validateScanAux ms [] []).1 v = versionCount ms v := by
    rw [validateScanAux_fst_lookup]
    simp [lookupCount, versionCount]
  exact dupErrsAux_mem _ [] v (versionCount ms v)
    (mem_of_lookupCount_pos _ v _ hl (by omega)) h

/-- A registry accepted by `validateMigrations` produced no findings. -/
lemma errs_nil_of_valid {ms : List Migration}
    (h : validateMigrations ms = none) : validateMigrationsErrs ms = [] := by
  by_contra hne
  unfold validateMigrations at h
  rw [if_neg hne] at h
  exact Option.some_ne_none _ h

/-- Every migration of a valid registry passes its own checks. -/
lemma validateErr_none_of_valid {ms : List Migration}
    (h : validateMigrations ms = none) :
    ∀ m ∈ ms, m.validateErr = none := by
  intro m hm
  cases he : m.validateErr with
  | none => rfl
  | some e =>
    have := mem_errs_of_validateErr hm he
    rw [errs_nil_of_valid h] at this
    exact absurd this (List.not_mem_nil e)

/-- A valid registry has pairwise-distinct versions. -/
lemma nodup_of_valid {ms : List Migration}
    (h : validateMigrations ms = none) :
    (ms.map Migration.version).Nodup := by
  rw [List.nodup_iff_count_le_one]
  intro v
  by_contra hc
  push_neg at hc
  have := @dup_mem_errs ms v (by simpa [versionCount] using hc)
  rw [errs_nil_of_valid h] at this
  exact absurd this (List.not_mem_nil _)

/-- C6 counterexample: the single-migration registry whose migration has
version 0 AND no mode populated carries two defects from the claim's list
(`version ≤ 0` and `neither mode set`), yet the reported error mentions
only the first: `Migration.validate` returns at its first failing check,
so the neither-mode finding is never produced.  Hence "every defect …
is detected" fails as stated. -/
theorem c6_counterexample :
    (⟨0, none, none⟩ : Migration).version ≤ 0 ∧
    (⟨0, none, none⟩ : Migration).upDown = none ∧
    (⟨0, none, none⟩ : Migration).upDownNoTX = none ∧
    validateMigrationsErrs [⟨0, none, none⟩] =
      ["migration version must be > 0"] ∧
    validateMigrations [⟨0, none, none⟩] =
      some "invalid migration(s): migration version must be > 0" ∧
    "migration 0 must have UpDown xor UpDownNoTX fields defined" ∉
      validateMigrationsErrs [⟨0, none, none⟩] := by
  refine ⟨by decide, rfl, rfl, rfl, by decide, by decide⟩

/-- The registry with both a zero version and a duplicated version used by
the C6 particular instance. -/
def c6Registry : List Migration :=
  [⟨0, some ⟨some actNop, some actNop⟩, none⟩, txNop 2, txNop 2]

/-- C6 (amended): `validateMigrations` aggregates across the registry and
never short-circuits the scan: every defective migration contributes its
first defect (the per-migration checks run in order: version ≤ 0, neither
mode set, both modes set, chosen mode missing an up or down action),
every duplicated version contributes a finding, and all findings are
combined into the single reported "invalid migration(s)" error; in
particular a registry containing both a zero version and a duplicated
version yields one validation error mentioning both defects. -/
theorem c6_amended_validation :
    (∀ (ms : List Migration) (m : Migration) (e : String), m ∈ ms →
      m.validateErr = some e → e ∈ validateMigrationsErrs ms) ∧
    (∀ (ms : List Migration) (v : Int), 1 < versionCount ms v →
      dupMsg v (versionCount ms v) ∈ validateMigrationsErrs ms) ∧
    (∀ ms : List Migration, validateMigrationsErrs ms ≠ [] →
      validateMigrations ms = some ("invalid migration(s): " ++
        String.intercalate "; " (validateMigrationsErrs ms))) ∧
    ("migration version must be > 0" ∈ validateMigrationsErrs c6Registry ∧
      dupMsg 2 2 ∈ validateMigrationsErrs c6Registry ∧
      validateMigrations c6Registry = some ("invalid migration(s): " ++
        "migration version must be > 0; migration version 2 is defined 2 times")) := by
  refine ⟨?_, ?_, ?_, by decide, by decide, by decide⟩
  · intro ms m e hm he
    exact mem_errs_of_validateErr hm he
  · intro ms v h
    exact dup_mem_errs h
  · intro ms h
    unfold validateMigrations
    rw [if_neg h]

/-- C6 amended witness: both findings of the zero-version + duplicate
registry are recovered through the aggregation theorem. -/
theorem c6_amended_validation_witness :
    ((⟨0, some ⟨some actNop, some actNop⟩, none⟩ : Migration).validateErr =
      some "migration version must be > 0" ∧
      "migration version must be > 0" ∈ validateMigrationsErrs c6Registry) ∧
    (1 < versionCount c6Registry 2 ∧
      dupMsg 2 (versionCount c6Registry 2) ∈ validateMigrationsErrs c6Registry) ∧
    (validateMigrationsErrs c6Registry ≠ [] ∧
      validateMigrations c6Registry = some ("invalid migration(s): " ++
        String.intercalate "; " (validateMigrationsErrs c6Registry))) :=
  ⟨⟨by decide,
    c6_amended_validation.1 c6Registry _ _ (List.mem_cons_self _ _) (by decide)⟩,
   ⟨by decide, c6_amended_validation.2.1 c6Registry 2 (by decide)⟩,
   ⟨by decide, c6_amended_validation.2.2.1 c6Registry (by decide)⟩⟩

/-! ### Consecutive integer ranges (for registries with versions 1..N) -/

/-- The list `intRange a n = [a, a+1, ..., a+n-1]`. -/
def intRange (a : Int) : Nat → List Int
  | 0 => []
  | n + 1 => a :: intRange (a + 1) n

lemma intRange_length : ∀ (n : Nat) (a : Int), (intRange a n).length = n
  | 0, _ => rfl
  | n + 1, a => by simp [intRange, intRange_length n]

lemma mem_intRange :
    ∀ (n : Nat) (a x : Int), x ∈ intRange a n ↔ a ≤ x ∧ x < a + n
  | 0, a, x => by simp [intRange]
  | n + 1, a, x => by
    simp only [intRange, List.mem_cons, mem_intRange n (a + 1) x]
    push_cast
    omega

lemma chain_intRange :
    ∀ (n : Nat) (a : Int),
      List.Chain (fun u v => u < v) a (intRange (a + 1) n)
  | 0, a => List.Chain.nil
  | n + 1, a =>
    List.Chain.cons (by omega) (chain_intRange n (a + 1))

lemma pairwise_lt_intRange :
    ∀ (n : Nat) (a : Int), (intRange a n).Pairwise (fun u v => u < v)
  | 0, _ => List.Pairwise.nil
  | n + 1, a => by
    rw [intRange, List.pairwise_cons]
    exact ⟨fun x hx => by rw [mem_intRange] at hx; omega,
      pairwise_lt_intRange n (a + 1)⟩

lemma intRange_nodup (n : Nat) (a : Int) : (intRange a n).Nodup :=
  (pairwise_lt_intRange n a).imp ne_of_lt

lemma intRange_take :
    ∀ (n m : Nat) (a : Int), m ≤ n → (intRange a n).take m = intRange a m
  | _, 0, _, _ => by simp [intRange]
  | 0, m + 1, _, h => by omega
  | n + 1, m + 1, a, h => by
    simp only [intRange, List.take_succ_cons]
    rw [intRange_take n m (a + 1) (by omega)]

lemma intRange_drop :
    ∀ (n m : Nat) (a : Int), m ≤ n →
      (intRange a n).drop m = intRange (a + m) (n - m)
  | n, 0, a, _ => by simp [intRange]
  | 0, m + 1, _, h => by omega
  | n + 1, m + 1, a, h => by
    simp only [intRange, List.drop_succ_cons]
    rw [intRange_drop n m (a + 1) (by omega)]
    have h1 : a + 1 + (m : Int) = a + ((m + 1 : Nat) : Int) := by
      push_cast
      ring
    have h2 : n - m = n + 1 - (m + 1) := by omega
    rw [h1, h2]

lemma intRange_getLastD :
    ∀ (n : Nat) (a d : Int), (intRange a (n + 1)).getLastD d = a + n
  | 0, a, d => by simp [intRange]
  | n + 1, a, d => by
    rw [intRange, List.getLastD_cons]
    rw [intRange_getLastD n (a + 1) a]
    push_cast
    ring

/-- The version reached after a chain-compatible run of up-migrations: the
last applied version (or the start version when none applied). -/
lemma applyUps_getDBVersion :
    ∀ (ms : List Migration) (s : DBState),
      List.Chain (fun a b => a < b) (getDBVersion s)
        (ms.map Migration.version) →
      getDBVersion (applyUps ms s) =
        (ms.map Migration.version).getLastD (getDBVersion s)
  | [], s, _ => by simp [applyUps]
  | m :: rest, s, hchain => by
    rw [List.map_cons, List.chain_cons] at hchain
    obtain ⟨hlt, hchain2⟩ := hchain
    have hcur : getDBVersion (applyUpStep m s) = m.version :=
      getDBVersion_applyUpStep m s hlt
    show getDBVersion (applyUps rest (applyUpStep m s)) = _
    rw [applyUps_getDBVersion rest (applyUpStep m s) (by rw [hcur]; exact hchain2)]
    rw [List.map_cons, List.getLastD_cons, hcur]

/-- C1: for a registry whose versions are exactly {1..N} (distinct,
positive), a ledger at version V with 0 ≤ V ≤ N, and per-migration
executions that all succeed (well-formed modes, total up actions, clean
transaction environment), apply-all with limit 0 applies exactly
max(0, N−V) migrations — the versions V+1, …, N in ascending order, every
candidate with version ≤ V being skipped — emits one success line per
applied migration followed by the summary line, and leaves the ledger's
current version at N. -/
theorem c1_apply_all (N : Nat) (V : Int) (migrations : List Migration)
    (s : DBState)
    (hperm : List.Perm (migrations.map Migration.version) (intRange 1 N))
    (hmode : ∀ m ∈ migrations, HasMode m ∧ UpTotal m)
    (hcur : getDBVersion s = V)
    (hV0 : 0 ≤ V) (hVN : V ≤ (N : Int)) :
    ∃ s' : DBState,
      runCmdUp TxEnv.ok migrations s 0 =
        (s', (intRange (V + 1) ((N : Int) - V).toNat).map appliedLine ++
          [if (N : Int) - V = 0 then "No migrations to apply"
           else s!"{(N : Int) - V} migration(s) applied"], none) ∧
      s'.ledger = s.ledger ++ intRange (V + 1) ((N : Int) - V).toNat ∧
      getDBVersion s' = (N : Int) ∧
      ((intRange (V + 1) ((N : Int) - V).toNat).length : Int) =
        max 0 ((N : Int) - V) := by
  have htV : ((V.toNat : Int)) = V := Int.toNat_of_nonneg hV0
  have hkNV : ((((N : Int) - V).toNat : Int)) = (N : Int) - V :=
    Int.toNat_of_nonneg (by omega)
  have psl : List.Perm (sortMigrationsAsc migrations) migrations :=
    List.perm_insertionSort migLE migrations
  have hmapperm : List.Perm ((sortMigrationsAsc migrations).map Migration.version)
      (intRange 1 N) :=
    (psl.map Migration.version).trans hperm
  have hnd : ((sortMigrationsAsc migrations).map Migration.version).Nodup :=
    (hmapperm.nodup_iff).mpr (intRange_nodup N 1)
  have hle1 : ((sortMigrationsAsc migrations).map Migration.version).Pairwise
      (fun u v : Int => u ≤ v) :=
    List.Pairwise.map Migration.version (fun _ _ h => h)
      (List.sorted_insertionSort migLE migrations)
  have hsorted : ((sortMigrationsAsc migrations).map Migration.version).Pairwise
      (fun u v : Int => u < v) :=
    (hle1.and hnd).imp (fun h => lt_of_le_of_ne h.1 h.2)
  haveI : IsAntisymm Int (fun u v : Int => u < v) :=
    ⟨fun a b h1 h2 => absurd (lt_trans h1 h2) (lt_irrefl a)⟩
  have hmap : (sortMigrationsAsc migrations).map Migration.version =
      intRange 1 N :=
    List.eq_of_perm_of_sorted hmapperm hsorted (pairwise_lt_intRange N 1)
  have hmapsk : ((sortMigrationsAsc migrations).take V.toNat).map
      Migration.version = intRange 1 V.toNat := by
    rw [List.map_take, hmap, intRange_take N V.toNat 1 (by omega)]
  have hmappend : ((sortMigrationsAsc migrations).drop V.toNat).map
      Migration.version = intRange (V + 1) ((N : Int) - V).toNat := by
    rw [List.map_drop, hmap, intRange_drop N V.toNat 1 (by omega)]
    have h1 : (1 : Int) + (V.toNat : Int) = V + 1 := by omega
    have h2 : N - V.toNat = ((N : Int) - V).toNat := by omega
    rw [h1, h2]
  have hskipped : ∀ m ∈ (sortMigrationsAsc migrations).take V.toNat,
      m.version ≤ getDBVersion s := by
    intro m hm
    have hv : m.version ∈ ((sortMigrationsAsc migrations).take V.toNat).map
        Migration.version := List.mem_map_of_mem _ hm
    rw [hmapsk, mem_intRange] at hv
    rw [hcur]
    omega
  have hpendmode : ∀ m ∈ (sortMigrationsAsc migrations).drop V.toNat,
      HasMode m ∧ UpTotal m :=
    fun m hm => hmode m (psl.mem_iff.mp (List.drop_subset V.toNat _ hm))
  have hchain : List.Chain (fun a b => a < b) (getDBVersion s)
      (((sortMigrationsAsc migrations).drop V.toNat).map Migration.version) := by
    rw [hmappend, hcur]
    exact chain_intRange _ V
  have hplen : ((sortMigrationsAsc migrations).drop V.toNat).length =
      ((N : Int) - V).toNat := by
    have hh := congrArg List.length hmappend
    rwa [List.length_map, intRange_length] at hh
  have hrun : runCmdUp TxEnv.ok migrations s 0 =
      runCmdUpLoop TxEnv.ok (getDBVersion s) 0 []
        (applyUps ((sortMigrationsAsc migrations).drop V.toNat) s)
        ([] ++ ((sortMigrationsAsc migrations).drop V.toNat).map
          (fun m => appliedLine m.version))
        (0 + ((sortMigrationsAsc migrations).drop V.toNat).length) := by
    unfold runCmdUp
    conv_lhs =>
      rw [show sortMigrationsAsc migrations =
        (sortMigrationsAsc migrations).take V.toNat ++
          (sortMigrationsAsc migrations).drop V.toNat
        from (List.take_append_drop V.toNat _).symm]
    rw [runCmdUpLoop_skip TxEnv.ok (getDBVersion s) 0 _ _ s [] 0 hskipped]
    have happ := runCmdUpLoop_ok_append (getDBVersion s) 0 le_rfl
      ((sortMigrationsAsc migrations).drop V.toNat) [] s [] 0
      hpendmode hchain le_rfl
    rw [List.append_nil] at happ
    exact happ
  have hledger : (applyUps ((sortMigrationsAsc migrations).drop V.toNat) s).ledger =
      s.ledger ++ intRange (V + 1) ((N : Int) - V).toNat := by
    rw [applyUps_ledger, hmappend]
  have hlines : ((sortMigrationsAsc migrations).drop V.toNat).map
      (fun m => appliedLine m.version) =
      (intRange (V + 1) ((N : Int) - V).toNat).map appliedLine := by
    rw [← hmappend, List.map_map]
    rfl
  have hfinal : getDBVersion
      (applyUps ((sortMigrationsAsc migrations).drop V.toNat) s) = (N : Int) := by
    rw [applyUps_getDBVersion _ s hchain, hmappend, hcur]
    cases hk : ((N : Int) - V).toNat with
    | zero =>
      show V = (N : Int)
      omega
    | succ j =>
      rw [intRange_getLastD j (V + 1) V]
      omega
  refine ⟨applyUps ((sortMigrationsAsc migrations).drop V.toNat) s,
    ?_, hledger, hfinal, ?_⟩
  · rw [hrun]
    cases hk : ((N : Int) - V).toNat with
    | zero =>
      have hpe : (sortMigrationsAsc migrations).drop V.toNat = [] :=
        List.length_eq_zero.mp (by rw [hplen, hk])
      rw [hpe]
      show (s, [] ++ ["No migrations to apply"], none) = _
      have hNV : (N : Int) - V = 0 := by omega
      rw [hNV]
      simp [applyUps, intRange]
    | succ j =>
      have hnb : (0 : Int) + (((sortMigrationsAsc migrations).drop V.toNat).length : Int) =
          (N : Int) - V := by
        rw [hplen]
        omega
      have hnz : ¬ ((0 : Int) + (((sortMigrationsAsc migrations).drop V.toNat).length : Int) = 0) := by
        rw [hplen, hk]
        push_cast
        omega
      show (if (0 : Int) + (((sortMigrationsAsc migrations).drop V.toNat).length : Int) = 0
          then _ else _) = _
      rw [if_neg hnz]
      have hNVnz : ¬ ((N : Int) - V = 0) := by omega
      rw [if_neg hNVnz, hlines, hnb]
      simp
      rw [hk]
  · rw [intRange_length]
    omega

/-- C1 witness: registry {2, 1, 3} (unsorted), ledger at version 1: the run
applies 2 then 3 and finishes at version 3. -/
theorem c1_apply_all_witness :
    List.Perm ([txNop 2, txNop 1, txNop 3].map Migration.version)
      (intRange 1 3) ∧
    getDBVersion ⟨[1], []⟩ = 1 ∧
    (∃ s' : DBState,
      runCmdUp TxEnv.ok [txNop 2, txNop 1, txNop 3] ⟨[1], []⟩ 0 =
        (s', (intRange (1 + 1) ((3 : Int) - 1).toNat).map appliedLine ++
          [if (3 : Int) - 1 = 0 then "No migrations to apply"
           else s!"{(3 : Int) - 1} migration(s) applied"], none) ∧
      s'.ledger = [1] ++ intRange (1 + 1) ((3 : Int) - 1).toNat ∧
      getDBVersion s' = (3 : Int) ∧
      ((intRange (1 + 1) ((3 : Int) - 1).toNat).length : Int) =
        max 0 ((3 : Int) - 1)) :=
  ⟨by decide, rfl,
   c1_apply_all 3 1 [txNop 2, txNop 1, txNop 3] ⟨[1], []⟩ (by decide)
     (by
       intro m hm
       rcases List.mem_cons.mp hm with rfl | hm2
       · exact ⟨Or.inl rfl, fun sch => rfl⟩
       rcases List.mem_cons.mp hm2 with rfl | hm3
       · exact ⟨Or.inl rfl, fun sch => rfl⟩
       rcases List.mem_cons.mp hm3 with rfl | hm4
       · exact ⟨Or.inl rfl, fun sch => rfl⟩
       · exact absurd hm4 (List.not_mem_nil m))
     rfl (by decide) (by decide)⟩

/-! ### Rollback (runCmdDown) -/

/-- The state after one successfully rolled-back migration: the down
action's schema effect plus the ledger delete. -/
def applyDownStep (m : Migration) (s : DBState) : DBState :=
  deleteDBVersion m.version { s with schema := ((downFn m) s.schema).1 }

/-- If an eligible down-migration executes successfully for `m`, the
executor matching its mode commits exactly `applyDownStep m`. -/
lemma dispatchDown_ok (m : Migration) (s : DBState) (hmode : HasMode m)
    (hdown : DownTotal m) (hguard : m.version ≤ getDBVersion s) :
    dispatchDown TxEnv.ok m s = (applyDownStep m s, none) := by
  have hng : ¬ (m.version > getDBVersion s) := not_lt.mpr hguard
  cases hud : m.upDown with
  | some ud =>
    have hdfn : downFn m = actionOrNil ud.down := by simp [downFn, hud]
    have h2 := hdown s.schema
    rw [hdfn] at h2
    cases hact : actionOrNil ud.down s.schema with
    | mk sch r =>
      rw [hact] at h2
      simp only at h2
      subst h2
      simp only [dispatchDown, hud, executeInTx, TxEnv.ok, migrateDown, hng,
        if_false, hact, applyDownStep, hdfn, getDBVersion_set_schema]
  | none =>
    cases hud2 : m.upDownNoTX with
    | some ud =>
      have hdfn : downFn m = actionOrNil ud.down := by simp [downFn, hud, hud2]
      have h2 := hdown s.schema
      rw [hdfn] at h2
      cases hact : actionOrNil ud.down s.schema with
      | mk sch r =>
        rw [hact] at h2
        simp only at h2
        subst h2
        simp only [dispatchDown, hud, hud2, executeNoTx, migrateDown, hng,
          if_false, hact, applyDownStep, hdfn, getDBVersion_set_schema]
    | none =>
      rcases hmode with h | h
      · rw [hud] at h; simp at h
      · rw [hud2] at h; simp at h

lemma runCmdDownLoop_skip (env : TxEnv) (dbV : Int) :
    ∀ (pre tail : List Migration) (s : DBState),
      (∀ m ∈ pre, dbV < m.version) →
      runCmdDownLoop env dbV (pre ++ tail) s =
        runCmdDownLoop env dbV tail s
  | [], tail, s, _ => by simp
  | m :: rest, tail, s, h => by
    have hm : m.version > dbV := h m (List.mem_cons_self m rest)
    simp only [List.cons_append, runCmdDownLoop, if_pos hm]
    exact runCmdDownLoop_skip env dbV rest tail s
      (fun m' hm' => h m' (List.mem_cons_of_mem m hm'))

/-- A migration passing its own validation has a mode populated. -/
lemma hasMode_of_validateErr_none {m : Migration}
    (h : m.validateErr = none) : HasMode m := by
  unfold Migration.validateErr at h
  by_cases hv : m.version ≤ 0
  · rw [if_pos hv] at h
    exact absurd h (Option.some_ne_none _)
  · rw [if_neg hv] at h
    cases hud : m.upDown with
    | some ud => exact Or.inl (by rw [hud]; rfl)
    | none =>
      cases hud2 : m.upDownNoTX with
      | some ud => exact Or.inr (by rw [hud2]; rfl)
      | none =>
        rw [hud, hud2] at h
        exact absurd h (Option.some_ne_none _)

/-- C5: on a valid registry, (1) when some registry version is ≤ the
current ledger version V, rollback-one executes the down action of exactly
the single highest registry version ≤ V (so V > 0, as valid versions are
positive), deletes exactly that version from the ledger, emits its
rolled-back line, and returns — at most one migration per invocation;
(2) when no registry version is ≤ V (in particular when V = 0), it
performs no ledger mutation and reports "No migrations to roll back". -/
theorem c5_rollback_one :
    (∀ (migrations : List Migration) (s : DBState) (m : Migration),
      validateMigrations migrations = none →
      DownTotal m →
      m ∈ migrations →
      m.version ≤ getDBVersion s →
      (∀ m' ∈ migrations, m'.version ≤ getDBVersion s →
        m'.version ≤ m.version) →
      runCmdDown TxEnv.ok migrations s =
        (applyDownStep m s, [rolledBackLine m.version], none)) ∧
    (∀ (migrations : List Migration) (s : DBState),
      (∀ m' ∈ migrations, getDBVersion s < m'.version) →
      runCmdDown TxEnv.ok migrations s =
        (s, ["No migrations to roll back"], none)) := by
  constructor
  · intro migrations s m hvalid hdt hm hle hmax
    have psl : List.Perm (sortMigrationsDesc migrations) migrations :=
      List.perm_insertionSort migGE migrations
    have hnd : ((sortMigrationsDesc migrations).map Migration.version).Nodup :=
      ((psl.map Migration.version).nodup_iff).mpr (nodup_of_valid hvalid)
    have hne : (sortMigrationsDesc migrations).Pairwise
        (fun a b => a.version ≠ b.version) := List.pairwise_map.mp hnd
    have hsorted : (sortMigrationsDesc migrations).Pairwise
        (fun a b => b.version < a.version) :=
      ((List.sorted_insertionSort migGE migrations).and hne).imp
        (fun h => lt_of_le_of_ne h.1 (Ne.symm h.2))
    obtain ⟨pre, post, hsplit⟩ :=
      List.append_of_mem (psl.mem_iff.mpr hm)
    have hpair := hsplit ▸ hsorted
    rw [List.pairwise_append] at hpair
    have hpre : ∀ x ∈ pre, getDBVersion s < x.version := by
      intro x hx
      have hxm : m.version < x.version :=
        hpair.2.2 x hx m (List.mem_cons_self m post)
      by_contra hc
      push_neg at hc
      have hxmem : x ∈ migrations :=
        psl.mem_iff.mp (hsplit ▸ List.mem_append_left _ hx)
      have := hmax x hxmem hc
      omega
    have hmode : HasMode m :=
      hasMode_of_validateErr_none (validateErr_none_of_valid hvalid m hm)
    unfold runCmdDown
    rw [hsplit, runCmdDownLoop_skip TxEnv.ok (getDBVersion s) pre
      (m :: post) s hpre]
    have hng : ¬ (m.version > getDBVersion s) := not_lt.mpr hle
    have hdisp := dispatchDown_ok m s hmode hdt hle
    simp only [runCmdDownLoop, if_neg hng, hdisp]
  · intro migrations s hall
    have psl : List.Perm (sortMigrationsDesc migrations) migrations :=
      List.perm_insertionSort migGE migrations
    unfold runCmdDown
    rw [← List.append_nil (sortMigrationsDesc migrations),
      runCmdDownLoop_skip TxEnv.ok (getDBVersion s) _ [] s
        (fun m hm => hall m (psl.mem_iff.mp hm))]
    rfl

/-- C5 witness: registry {1, 2, 3} on a ledger at version 2 rolls back
exactly version 2 (the highest applied one); on an empty ledger the same
registry reports "No migrations to roll back" and changes nothing. -/
theorem c5_rollback_one_witness :
    (validateMigrations [txNop 1, txNop 2, txNop 3] = none ∧
      (txNop 2).version ≤ getDBVersion ⟨[1, 2], []⟩ ∧
      runCmdDown TxEnv.ok [txNop 1, txNop 2, txNop 3] ⟨[1, 2], []⟩ =
        (⟨[1], []⟩, [rolledBackLine 2], none)) ∧
    ((∀ m' ∈ [txNop 1, txNop 2, txNop 3],
        getDBVersion (⟨[], []⟩ : DBState) < m'.version) ∧
      runCmdDown TxEnv.ok [txNop 1, txNop 2, txNop 3] ⟨[], []⟩ =
        (⟨[], []⟩, ["No migrations to roll back"], none)) := by
  have hmem : ∀ m' ∈ [txNop 1, txNop 2, txNop 3],
      m'.version = 1 ∨ m'.version = 2 ∨ m'.version = 3 := by
    intro m' hm'
    rcases List.mem_cons.mp hm' with rfl | h2
    · exact Or.inl rfl
    rcases List.mem_cons.mp h2 with rfl | h3
    · exact Or.inr (Or.inl rfl)
    rcases List.mem_cons.mp h3 with rfl | h4
    · exact Or.inr (Or.inr rfl)
    · exact absurd h4 (List.not_mem_nil m')
  refine ⟨⟨by decide, by decide, ?_⟩, ⟨?_, ?_⟩⟩
  · exact c5_rollback_one.1 [txNop 1, txNop 2, txNop 3] ⟨[1, 2], []⟩
      (txNop 2) (by decide) (fun _ => rfl)
      (List.mem_cons_of_mem _ (List.mem_cons_self _ _)) (by decide)
      (fun m' hm' h => by rcases hmem m' hm' with h1 | h1 | h1 <;> rw [h1] at h ⊢ <;> revert h <;> decide)
  · intro m' hm'
    rcases hmem m' hm' with h1 | h1 | h1 <;> rw [h1] <;> decide
  · exact c5_rollback_one.2 [txNop 1, txNop 2, txNop 3] ⟨[], []⟩
      (fun m' hm' => by rcases hmem m' hm' with h1 | h1 | h1 <;> rw [h1] <;> decide)

end Gosmig
